import Mathlib

/-!
Verification development for the bulk GitHub Copilot agent configuration tool.

The TypeScript core (src/src/engine.ts, src/src/browser/automator.ts,
src/src/github/api.ts, src/src/config/parser.ts, src/src/github/cli.ts) and the
Windows automation pipeline (windows/configure-copilot.ps1,
windows/autoit/github-copilot-config.au3) are shallowly embedded below.
JavaScript objects used as string-keyed maps are modelled as ordered association
lists, mirroring JavaScript's insertion-order semantics for object keys; this
keeps `JSON.stringify` comparisons expressible (two configurations serialize
identically exactly when their ordered entry lists coincide, each server spec
having one canonical serialization in the model).
-/

namespace BulkConfig

/-! ## JavaScript object-as-map primitives -/

/-- Property lookup `m[k]` on a JavaScript object modelled as an ordered
association list (first occurrence wins; genuine JS objects have unique keys). -/
def objLookup {α : Type} : List (String × α) → String → Option α
  | [], _ => none
  | p :: m, k => if p.1 = k then some p.2 else objLookup m k

/-- The test `(objLookup m k).isSome`: the truthiness check `m[k]` for object-valued
entries (object values are never falsy in JavaScript). -/
def objMem {α : Type} (m : List (String × α)) (k : String) : Bool :=
  (objLookup m k).isSome

/-- Property assignment `m[k] = v`: replaces the value in place when the key is
present, appends a new entry otherwise (JavaScript insertion-order semantics). -/
def objInsert {α : Type} : List (String × α) → String → α → List (String × α)
  | [], k, v => [(k, v)]
  | p :: m, k, v => if p.1 = k then (k, v) :: m else p :: objInsert m k v

/-- The object spread `{...a, ...b}`: entries of `b` assigned into a copy of
`a` in order (loop over `b`'s entries, written as structural recursion). -/
def objSpread {α : Type} : List (String × α) → List (String × α) → List (String × α)
  | a, [] => a
  | a, p :: bs => objSpread (objInsert a p.1 p.2) bs

/-! ## Data model (src/src/utils/logger.ts aka src/types) -/

/-- Type `MCPServerConfig` (src/src/utils/logger.ts lines 79-90): one server entry.
Optional string fields are `Option String`; `tools` is mandatory by the type. -/
structure MCPServerConfig where
  type : String
  url : Option String := none
  headers : List (String × String) := []
  command : Option String := none
  args : List String := []
  env : List (String × String) := []
  tools : List String := []
deriving DecidableEq, Repr

/-- Type `MCPConfig` (src/src/utils/logger.ts lines 73-77): the single top-level
`mcpServers` object, a server-name-keyed map. -/
structure MCPConfig where
  mcpServers : List (String × MCPServerConfig)
deriving DecidableEq, Repr

/-- The `MergeStrategy` enum (src/src/utils/logger.ts lines 161-166). -/
inductive MergeStrategy where
  | skip
  | merge
  | mergeOverwrite
  | forceOverwrite
deriving DecidableEq, Repr

/-! ## Configuration merger
(`BrowserAutomator.mergeMCPConfig`, src/src/browser/automator.ts lines 341-380;
`GitHubAPIAutomator.mergeMCPConfig` in src/unnamed/part_010 lines 603-643 is
textually identical). -/

/-- The MERGE branch body: start from `{...existing.mcpServers}` and add each
incoming entry only when its key is not yet present
(src/src/browser/automator.ts lines 354-363; the `for`-loop over the incoming
entries is written as structural recursion on the incoming list). -/
def mergeKeepExisting :
    List (String × MCPServerConfig) → List (String × MCPServerConfig) →
    List (String × MCPServerConfig)
  | merged, [] => merged
  | merged, p :: bs =>
      mergeKeepExisting (if objMem merged p.1 then merged else merged ++ [p]) bs

/-- Function `mergeMCPConfig(existing, newConfig, strategy)`: pure merge of an optional
existing configuration with the incoming one under the selected strategy
(src/src/browser/automator.ts lines 341-380). -/
def mergeMCPConfig (existing : Option MCPConfig) (newConfig : MCPConfig)
    (strategy : MergeStrategy) : MCPConfig :=
  match strategy with
  | .skip =>
      match existing with
      | some e => e
      | none => newConfig
  | .merge =>
      match existing with
      | none => newConfig
      | some e => ⟨mergeKeepExisting e.mcpServers newConfig.mcpServers⟩
  | .mergeOverwrite =>
      match existing with
      | none => newConfig
      | some e => ⟨objSpread e.mcpServers newConfig.mcpServers⟩
  | .forceOverwrite => newConfig

/-! ## Write-skip decision
(src/src/engine.ts lines 251-261 and src/src/browser/automator.ts lines
393-403: `JSON.stringify(existingConfig) === JSON.stringify(finalConfig)`). -/

/-- The engine's "no write necessary" test: serialization equality of the
existing configuration with the merge result. On the embedded model two
configurations have equal `JSON.stringify` output exactly when their ordered
server lists are equal. An absent existing configuration always writes. -/
def skipWrite (existing : Option MCPConfig) (finalConfig : MCPConfig) : Bool :=
  match existing with
  | some e => e = finalConfig
  | none => false

/-- The `configureRepository` write decision (src/src/browser/automator.ts lines
382-413): merge, then write unless `skipWrite`. Returns `true` when
`updateMCPConfig` is invoked for the repository. -/
def configureRepositoryWrites (existing : Option MCPConfig)
    (newConfig : MCPConfig) (strategy : MergeStrategy) : Bool :=
  !(skipWrite existing (mergeMCPConfig existing newConfig strategy))

/-- Structural (deep) configuration equality: server-by-server, field-by-field,
insensitive to entry order — the equality the specification's no-write
optimization speaks about. -/
def deepEqualConfig (a b : MCPConfig) : Prop :=
  ∀ k, objLookup a.mcpServers k = objLookup b.mcpServers k

/-! ## Merge-strategy flag resolution
(`ConfigurationEngine.determineMergeStrategy`, src/src/engine.ts 113-128). -/

/-- The four merge-policy command-line flags
(subset of `ConfigurationOptions`, src/src/utils/logger.ts lines 104-119). -/
structure MergeFlags where
  forceOverwrite : Bool
  merge : Bool
  mergeOverwrite : Bool
  skipExisting : Bool
deriving DecidableEq, Repr

/-- Method `determineMergeStrategy` (src/src/engine.ts lines 113-128); the final
branch is the code's "Default to skip existing for safety". -/
def determineMergeStrategy (o : MergeFlags) : MergeStrategy :=
  if o.forceOverwrite then .forceOverwrite
  else if o.merge && o.mergeOverwrite then .mergeOverwrite
  else if o.merge then .merge
  else if o.skipExisting then .skip
  else .skip

/-! ## Helper lemmas on the object primitives -/

theorem objLookup_append {α : Type} (a b : List (String × α)) (k : String) :
    objLookup (a ++ b) k = (objLookup a k).or (objLookup b k) := by
  induction a with
  | nil => simp [objLookup]
  | cons p m ih =>
      by_cases h : p.1 = k <;> simp [objLookup, h, ih]

theorem objLookup_eq_none_of_not_mem {α : Type} (m : List (String × α))
    (k : String) (h : k ∉ m.map Prod.fst) : objLookup m k = none := by
  induction m with
  | nil => rfl
  | cons p m ih =>
      have hp : ¬ p.1 = k := fun he => h (by simp [he])
      have hm : k ∉ m.map Prod.fst := fun hm => h (by simp [hm])
      simp [objLookup, hp, ih hm]

theorem objLookup_objInsert {α : Type} (m : List (String × α)) (k0 : String)
    (v0 : α) (k : String) :
    objLookup (objInsert m k0 v0) k =
      if k0 = k then some v0 else objLookup m k := by
  induction m with
  | nil =>
      by_cases h : k0 = k <;> simp [objInsert, objLookup, h]
  | cons p m ih =>
      by_cases h1 : p.1 = k0
      · by_cases h2 : k0 = k
        · subst h2
          simp [objInsert, objLookup, h1]
        · have hpk : ¬ p.1 = k := fun hk => h2 (h1 ▸ hk)
          have h2s : ¬ k = k0 := fun h => h2 h.symm
          simp [objInsert, objLookup, h1, h2, h2s, hpk]
      · by_cases hpk : p.1 = k
        · have h2 : ¬ k0 = k := fun h => h1 (hpk.trans h.symm)
          have h2s : ¬ k = k0 := fun h => h2 h.symm
          simp [objInsert, objLookup, h1, h2, h2s, hpk]
        · by_cases h2 : k0 = k
          · subst h2
            simp [objInsert, objLookup, h1, hpk, ih]
          · simp [objInsert, objLookup, h1, h2, hpk, ih]

theorem objInsert_of_not_mem {α : Type} (m : List (String × α)) (k : String)
    (v : α) (h : objLookup m k = none) : objInsert m k v = m ++ [(k, v)] := by
  induction m with
  | nil => simp [objInsert]
  | cons p m ih =>
      by_cases hp : p.1 = k
      · simp [objLookup, hp] at h
      · simp only [objLookup, hp, if_false, if_neg hp] at h ⊢
        simp [objInsert, hp, ih h]

theorem objLookup_mergeKeepExisting (b : List (String × MCPServerConfig)) :
    ∀ (a : List (String × MCPServerConfig)) (k : String),
    objLookup (mergeKeepExisting a b) k =
      (objLookup a k).or (objLookup b k) := by
  induction b with
  | nil => intro a k; simp [mergeKeepExisting, objLookup]
  | cons p bs ih =>
      intro a k
      rw [mergeKeepExisting, ih]
      by_cases hmem : objMem a p.1
      · rw [if_pos hmem]
        by_cases hk : p.1 = k
        · subst hk
          have hs : (objLookup a p.1).isSome := hmem
          rcases Option.isSome_iff_exists.mp hs with ⟨v, hv⟩
          simp [objLookup, hv]
        · simp [objLookup, hk]
      · rw [if_neg hmem, objLookup_append]
        have hnone : objLookup a p.1 = none := by
          rcases h : objLookup a p.1 with _ | v
          · rfl
          · exact absurd (by simp [objMem, h]) hmem
        by_cases hk : p.1 = k
        · subst hk
          simp [objLookup, hnone]
        · simp [objLookup, hk]

theorem objLookup_objSpread (b : List (String × MCPServerConfig)) :
    ∀ (a : List (String × MCPServerConfig)) (k : String),
    (b.map Prod.fst).Nodup →
    objLookup (objSpread a b) k = (objLookup b k).or (objLookup a k) := by
  induction b with
  | nil => intro a k _; simp [objSpread, objLookup]
  | cons p bs ih =>
      intro a k hb
      have hb' : (bs.map Prod.fst).Nodup := (List.nodup_cons.mp hb).2
      have hnotin : p.1 ∉ bs.map Prod.fst := (List.nodup_cons.mp hb).1
      rw [objSpread, ih _ _ hb']
      by_cases hk : p.1 = k
      · subst hk
        have hbs : objLookup bs p.1 = none :=
          objLookup_eq_none_of_not_mem bs p.1 hnotin
        simp [objLookup, hbs, objLookup_objInsert]
      · simp [objLookup, hk, objLookup_objInsert]

theorem mergeKeepExisting_disjoint (b : List (String × MCPServerConfig)) :
    ∀ (a : List (String × MCPServerConfig)),
    (b.map Prod.fst).Nodup → (∀ p ∈ b, objLookup a p.1 = none) →
    mergeKeepExisting a b = a ++ b := by
  induction b with
  | nil => intro a _ _; simp [mergeKeepExisting]
  | cons p bs ih =>
      intro a hb hdisj
      have hp : objLookup a p.1 = none := hdisj p (by simp)
      have hmem : objMem a p.1 = false := by simp [objMem, hp]
      have hnotin : p.1 ∉ bs.map Prod.fst := (List.nodup_cons.mp hb).1
      rw [mergeKeepExisting, hmem]
      simp only [Bool.false_eq_true, if_false]
      rw [ih (a ++ [p]) (List.nodup_cons.mp hb).2 ?_]
      · simp
      · intro q hq
        rw [objLookup_append]
        have hq1 : objLookup a q.1 = none := hdisj q (by simp [hq])
        have hq2 : ¬ p.1 = q.1 := by
          intro h
          exact hnotin (h ▸ (List.mem_map.mpr ⟨q, hq, rfl⟩))
        simp [objLookup, hq1, hq2]

theorem objSpread_disjoint (b : List (String × MCPServerConfig)) :
    ∀ (a : List (String × MCPServerConfig)),
    (b.map Prod.fst).Nodup → (∀ p ∈ b, objLookup a p.1 = none) →
    objSpread a b = a ++ b := by
  induction b with
  | nil => intro a _ _; simp [objSpread]
  | cons p bs ih =>
      intro a hb hdisj
      have hp : objLookup a p.1 = none := hdisj p (by simp)
      have hnotin : p.1 ∉ bs.map Prod.fst := (List.nodup_cons.mp hb).1
      rw [objSpread, objInsert_of_not_mem a p.1 p.2 hp]
      rw [ih (a ++ [(p.1, p.2)]) (List.nodup_cons.mp hb).2 ?_]
      · simp
      · intro q hq
        rw [objLookup_append]
        have hq1 : objLookup a q.1 = none := hdisj q (by simp [hq])
        have hq2 : ¬ p.1 = q.1 := by
          intro h
          exact hnotin (h ▸ (List.mem_map.mpr ⟨q, hq, rfl⟩))
        simp [objLookup, hq1, hq2]

/-! ## Configuration validation
(`ConfigParser.validateMCPConfig`, src/src/config/parser.ts lines 69-103),
and the engine prologue that runs it before any network or browser work
(`ConfigurationEngine.configure`, src/src/engine.ts lines 31-111). -/

/-- A server entry as it arrives from the parsed JSON file, before validation.
`none` on `type`/`url`/`command` models an absent property, and `none` on
`tools` models a property that is absent or not an array
(the `Array.isArray` test). -/
structure ServerJson where
  type : Option String := none
  url : Option String := none
  command : Option String := none
  tools : Option (List String) := none
deriving DecidableEq, Repr

/-- The parsed MCP configuration file before validation; `mcpServers = none`
models a missing or non-object `mcpServers` property. -/
structure MCPConfigJson where
  mcpServers : Option (List (String × ServerJson)) := none
deriving DecidableEq, Repr

/-- JavaScript truthiness of an optional string property: absent and the empty
string are falsy (`!serverConfig.url` rejects both). -/
def truthyStr : Option String → Bool
  | none => false
  | some s => !s.isEmpty

/-- The per-server checks of `validateMCPConfig`, in source order:
`type` must be `"http"` or `"local"`, `tools` must be an array, an `"http"`
server must have a truthy string `url`, a `"local"` server a truthy string
`command` (src/src/config/parser.ts lines 78-102). -/
def validateServer (serverName : String) (s : ServerJson) : Except String Unit :=
  if ¬ (s.type = some "http" ∨ s.type = some "local") then
    .error ("MCP server \x22" ++ serverName ++
      "\x22 must have a \x22type\x22 property set to \x22http\x22 or \x22local\x22")
  else if s.tools = none then
    .error ("MCP server \x22" ++ serverName ++
      "\x22 must have a \x22tools\x22 array property")
  else if s.type = some "http" ∧ ¬ truthyStr s.url then
    .error ("HTTP MCP server \x22" ++ serverName ++
      "\x22 must have a \x22url\x22 string property")
  else if s.type = some "local" ∧ ¬ truthyStr s.command then
    .error ("Local MCP server \x22" ++ serverName ++
      "\x22 must have a \x22command\x22 string property")
  else
    .ok ()

/-- Iterate the per-server checks over the entries, throwing at the first
failure (the `for` loop of src/src/config/parser.ts lines 78-102). -/
def validateServers : List (String × ServerJson) → Except String Unit
  | [] => .ok ()
  | p :: rest =>
      match validateServer p.1 p.2 with
      | .error e => .error e
      | .ok _ => validateServers rest

/-- Method `ConfigParser.validateMCPConfig` (src/src/config/parser.ts lines 69-103). -/
def validateMCPConfig (c : MCPConfigJson) : Except String Unit :=
  match c.mcpServers with
  | none => .error "MCP config must have an \x22mcpServers\x22 object property"
  | some servers => validateServers servers

/-- Externally visible engine steps, in the order `configure` performs them
(src/src/engine.ts lines 31-111): repository discovery, API automator and
browser initialization, then per-repository processing. -/
inductive EngineAction where
  | discoverRepositories
  | initApiAutomator
  | initBrowserAndAuthenticate
  | processRepository (fullName : String)
deriving DecidableEq, Repr

/-- The effect trace of `ConfigurationEngine.configure`
(src/src/engine.ts lines 31-111): configuration files are parsed and validated
first (lines 44-52); a validation error aborts the run before repository
discovery, API/browser initialization, or any repository processing. In
dry-run mode only discovery happens; in API-only mode the browser is never
initialized. -/
def configureTrace (mcp : MCPConfigJson) (repoNames : List String)
    (dryRun apiOnly : Bool) : Except String (List EngineAction) :=
  match validateMCPConfig mcp with
  | .error e => .error e
  | .ok _ =>
      .ok ([EngineAction.discoverRepositories] ++
        (if dryRun then []
         else [EngineAction.initApiAutomator] ++
           (if apiOnly then [] else [EngineAction.initBrowserAndAuthenticate]) ++
           repoNames.map EngineAction.processRepository))

theorem validateServers_error_of_mem (servers : List (String × ServerJson))
    (p : String × ServerJson) (hp : p ∈ servers)
    (hbad : ∃ m, validateServer p.1 p.2 = .error m) :
    ∃ m, validateServers servers = .error m := by
  induction servers with
  | nil => cases hp
  | cons q rest ih =>
      rcases List.mem_cons.mp hp with h | h
      · subst h
        rcases hbad with ⟨m, hm⟩
        exact ⟨m, by simp [validateServers, hm]⟩
      · rcases hq : validateServer q.1 q.2 with e | u
        · exact ⟨e, by simp [validateServers, hq]⟩
        · rcases ih h with ⟨m, hm⟩
          exact ⟨m, by simp [validateServers, hq, hm]⟩

theorem validateServer_error_http (serverName : String) (s : ServerJson)
    (htype : s.type = some "http") (hurl : truthyStr s.url = false) :
    ∃ m, validateServer serverName s = .error m := by
  rcases htools : s.tools with _ | ts
  · exact ⟨"MCP server \x22" ++ serverName ++
      "\x22 must have a \x22tools\x22 array property",
      by simp [validateServer, htype, htools]⟩
  · exact ⟨"HTTP MCP server \x22" ++ serverName ++
      "\x22 must have a \x22url\x22 string property",
      by simp [validateServer, htype, htools, hurl]⟩

theorem validateServer_error_local (serverName : String) (s : ServerJson)
    (htype : s.type = some "local") (hcmd : truthyStr s.command = false) :
    ∃ m, validateServer serverName s = .error m := by
  rcases htools : s.tools with _ | ts
  · exact ⟨"MCP server \x22" ++ serverName ++
      "\x22 must have a \x22tools\x22 array property",
      by simp [validateServer, htype, htools]⟩
  · exact ⟨"Local MCP server \x22" ++ serverName ++
      "\x22 must have a \x22command\x22 string property",
      by simp [validateServer, htype, htools, hcmd]⟩

/-! ## Field-locator heuristic
(`NavigateToMcpSection` and its five strategies,
src/windows/autoit/github-copilot-config.au3 lines 506-717, and the three-way
content classifier `CheckForMcpField`, lines 734-757).

The uncontrolled settings page is abstracted to an oracle: each focus state the
locator can reach is identified by which strategy step produced it, and the
oracle answers the three classifier sub-checks for that focus state. The
keystroke/sleep plumbing carries no decidable content and is elided; the
branch structure, the strategy order, and the bounds of every loop are kept
exactly as in the source. -/

/-- A focus state reached by the locator, identified by the strategy step that
produced it: the single probe after the search shortcut; the i-th Tab of
sequential Tab navigation; the j-th forward or backward Tab after searching a
given term; the j-th press of a given alternate shortcut; the j-th Tab after
the i-th page-down. -/
inductive Probe where
  | searchShortcut
  | tabNav (i : Nat)
  | searchTab (term : String) (forward : Bool) (j : Nat)
  | shortcutNav (shortcut : String) (j : Nat)
  | scrollTab (i j : Nat)
deriving DecidableEq, Repr

/-- The page oracle: the outcome of each of `CheckForMcpField`'s three
detection methods (clipboard content analysis, context analysis, JSON
structure detection) at every reachable focus state. -/
structure PageOracle where
  clipboardContent : Probe → Bool
  fieldContext : Probe → Bool
  jsonStructure : Probe → Bool

/-- Function `CheckForMcpField` (src/windows/autoit/github-copilot-config.au3 lines
734-757): positive when any of the three detection methods is positive, tried
in order clipboard, context, JSON structure. -/
def checkForMcpField (page : PageOracle) (p : Probe) : Bool :=
  page.clipboardContent p || page.fieldContext p || page.jsonStructure p

/-- Search terms of `SearchNavigationStrategy` (line 619). -/
def searchTerms : List String :=
  ["MCP configuration", "MCP", "configuration", "copilot", "agent"]

/-- Shortcut list of `ShortcutNavigationStrategy` (lines 673-674), by their
logged names. -/
def shortcutNames : List String :=
  ["F6 (Switch pane)", "Ctrl+Tab", "Tab", "Shift+Tab"]

/-- Focus states probed by Strategy 0, `FocusMcpFieldViaSearchShortcut`
(lines 551-580): one probe after search, Esc, Tab, Tab. -/
def searchShortcutProbes : List Probe := [Probe.searchShortcut]

/-- Focus states probed by Strategy 1, `TabNavigationStrategy` (lines
583-613): the field test runs after each of Tab 1 .. tabAttempts. -/
def tabNavProbes (tabAttempts : Nat) : List Probe :=
  (List.range tabAttempts).map (fun i => Probe.tabNav (i + 1))

/-- Focus states probed by Strategy 2, `SearchNavigationStrategy` (lines
616-665): for each search term, 10 forward Tabs then 10 backward
(Shift+Tab) steps, testing after each. -/
def searchNavProbes : List Probe :=
  searchTerms.flatMap (fun term =>
    ((List.range 10).map (fun j => Probe.searchTab term true (j + 1))) ++
    ((List.range 10).map (fun j => Probe.searchTab term false (j + 1))))

/-- Focus states probed by Strategy 3, `ShortcutNavigationStrategy` (lines
668-695): each of the four shortcuts pressed up to 10 times, testing after
each press. -/
def shortcutNavProbes : List Probe :=
  shortcutNames.flatMap (fun s =>
    (List.range 10).map (fun j => Probe.shortcutNav s (j + 1)))

/-- Focus states probed by Strategy 4, `ScrollNavigationStrategy` (lines
698-717): 20 page-downs, 5 Tabs after each, testing after each Tab. -/
def scrollNavProbes : List Probe :=
  (List.range 20).flatMap (fun i =>
    (List.range 5).map (fun j => Probe.scrollTab (i + 1) (j + 1)))

/-- One strategy run: the first probed focus state the classifier accepts,
`none` when the strategy exhausts its probes (each strategy returns at the
first positive `CheckForMcpField`). -/
def runStrategy (page : PageOracle) (probes : List Probe) : Option Probe :=
  probes.find? (checkForMcpField page)

/-- Function `NavigateToMcpSection` (src/windows/autoit/github-copilot-config.au3 lines
506-549): the five strategies attempted in fixed priority order, each run to
completion before the next starts; the result is the focused region of the
first positive classification, or `none` when every strategy is exhausted
(the script then fails with its "field not found" error, exit code 4). -/
def navigateToMcpSection (page : PageOracle) (tabAttempts : Nat) : Option Probe :=
  (runStrategy page searchShortcutProbes).or
    ((runStrategy page (tabNavProbes tabAttempts)).or
      ((runStrategy page searchNavProbes).or
        ((runStrategy page shortcutNavProbes).or
          (runStrategy page scrollNavProbes))))

/-- All focus states the locator can test, in the exact order it tests them. -/
def locatorProbeOrder (tabAttempts : Nat) : List Probe :=
  searchShortcutProbes ++ tabNavProbes tabAttempts ++ searchNavProbes ++
    shortcutNavProbes ++ scrollNavProbes

theorem find?_append {α : Type} (l1 l2 : List α) (f : α → Bool) :
    (l1 ++ l2).find? f = (l1.find? f).or (l2.find? f) := by
  induction l1 with
  | nil => simp
  | cons x l ih =>
      by_cases hx : f x <;> simp [List.find?, hx, ih]

theorem option_or_assoc {α : Type} (a b c : Option α) :
    (a.or b).or c = a.or (b.or c) := by
  cases a <;> rfl

/-! ## Engine: per-repository processing, batching, summary
(src/src/engine.ts lines 176-356) and the Windows orchestrator's retry loop
(`Process-Repository`, src/unnamed/part_003 lines 411-467). -/

/-- Per-repository outcome (`OperationResult`, src/src/utils/logger.ts lines
121-143), restricted to the fields the aggregate invariants speak about. -/
structure OperationResult where
  repository : String
  success : Bool
  error : Option String := none
deriving DecidableEq, Repr

/-- Method `ConfigurationEngine.processRepository` (src/src/engine.ts lines 223-337):
one run of the repository pipeline. The pipeline body (MCP read, merge, write,
secrets, variables) is abstracted to its outcome per attempt number; the
method invokes it exactly once, catches any error, and records it in the
result instead of rethrowing. The second component counts the pipeline
attempts performed, which is always 1: the TypeScript engine has no retry
loop. -/
def tsProcessRepository (fullName : String)
    (attemptOutcome : Nat → Except String Unit) : OperationResult × Nat :=
  match attemptOutcome 1 with
  | .ok _ => (⟨fullName, true, none⟩, 1)
  | .error e => (⟨fullName, false, some e⟩, 1)

/-- Recursion core of the PowerShell `Process-Repository`
(src/unnamed/part_003 lines 411-467), indexed by the remaining retries
`maxRetries - attemptNumber`: the current attempt runs; on success the
function returns true; otherwise, while attempts remain, it sleeps
`DelayBetweenRepos` seconds and re-enters the whole pipeline with the next
attempt number, and with none remaining it returns false. -/
def psProcessAux (attemptOutcome : Nat → Bool) (attemptNumber : Nat) :
    Nat → Bool
  | 0 => attemptOutcome attemptNumber
  | remaining + 1 =>
      if attemptOutcome attemptNumber then true
      else psProcessAux attemptOutcome (attemptNumber + 1) remaining

/-- Function `Process-Repository` (src/unnamed/part_003 lines 411-467): retried from
the top up to `maxRetries` total attempts (parameter default 3, fixed
`DelayBetweenRepos` delay, default 5 seconds, between attempts). -/
def psProcessRepository (attemptOutcome : Nat → Bool)
    (attemptNumber maxRetries : Nat) : Bool :=
  psProcessAux attemptOutcome attemptNumber (maxRetries - attemptNumber)

/-- The batch slicing of `processRepositories` (src/src/engine.ts lines
192-193: `for (let i = 0; i < repositories.length; i += concurrency)` with
`slice(i, i + concurrency)`), with the number of loop iterations bounded by
the list length (exact for any positive batch size). -/
def batchesAux {α : Type} (n : Nat) : List α → Nat → List (List α)
  | _, 0 => []
  | [], _ => []
  | l, fuel + 1 => l.take n :: batchesAux n (l.drop n) fuel

/-- The list of batches the engine issues, in resolution order. -/
def batches {α : Type} (n : Nat) (l : List α) : List (List α) :=
  batchesAux n l l.length

/-- The `Promise.allSettled` handling in src/src/engine.ts lines 196-216: a
fulfilled pipeline promise contributes its `OperationResult`; a rejected one
is converted to a failed result for the repository with the rejection reason
(the engine then proceeds — one repository's failure never stops the run). -/
def settleResult (fullName : String)
    (run : String → Except String OperationResult) : OperationResult :=
  match run fullName with
  | .ok r => r
  | .error reason => ⟨fullName, false, some reason⟩

/-- Method `ConfigurationEngine.processRepositories` (src/src/engine.ts lines
176-221): the repositories are cut into batches of the configured concurrency,
each batch awaited in full (successes and failures alike) before the next
starts, and every repository's settled result appended in batch order. -/
def processRepositories (concurrency : Nat)
    (run : String → Except String OperationResult)
    (repositories : List String) : List OperationResult :=
  (batches concurrency repositories).foldl
    (fun results batch => results ++ batch.map (fun r => settleResult r run)) []

/-- The `gh repo view` JSON fields `getRepositoriesFromList` consumes
(src/unnamed/part_010 lines 306-309). -/
structure RepoView where
  name : String
  owner : String
  viewerCanAdminister : Bool
deriving DecidableEq, Repr

/-- A discovered repository (`Repository`, src/src/utils/logger.ts lines
96-102, topics elided). -/
structure Repository where
  name : String
  owner : String
  fullName : String
  hasAdminAccess : Bool
deriving DecidableEq, Repr

/-- One iteration of the `getRepositoriesFromList` loop
(src/unnamed/part_010 lines 305-328): resolve the name through `gh repo view`
(modelled by the `view` oracle; `none` is a failed command, which is logged
and skipped), skip it with a warning when admin access is missing, and
otherwise push the constructed repository. -/
def selectorStep (view : String → Option RepoView)
    (repositories : List Repository) (repoName : String) : List Repository :=
  match view repoName with
  | none => repositories
  | some repo =>
      if !repo.viewerCanAdminister then repositories
      else repositories ++
        [⟨repo.name, repo.owner, repoName, repo.viewerCanAdminister⟩]

/-- Method `GitHubCLI.getRepositoriesFromList` (src/unnamed/part_010 lines 301-331):
the selector loop over the explicit repository list, starting from an empty
accumulator — in list order, one `selectorStep` per occurrence in the
input. -/
def getRepositoriesFromList (view : String → Option RepoView)
    (repoList : List String) : List Repository :=
  repoList.foldl (selectorStep view) []

/-- What one input occurrence contributes to the selector's output: nothing
when resolution fails or admin access is missing, otherwise the constructed
repository. -/
def selectorPick (view : String → Option RepoView) (repoName : String) :
    Option Repository :=
  match view repoName with
  | none => none
  | some repo =>
      if repo.viewerCanAdminister then
        some ⟨repo.name, repo.owner, repoName, repo.viewerCanAdminister⟩
      else none

/-- An entry of the summary's error list (`RepositoryError`,
src/src/utils/logger.ts lines 155-159, the constant `type` field elided). -/
structure RepositoryError where
  repository : String
  error : String
deriving DecidableEq, Repr

/-- Type `OperationSummary` (src/src/utils/logger.ts lines 145-153), without the
wall-clock fields. -/
structure OperationSummary where
  totalRepositories : Nat
  successful : Nat
  failed : Nat
  skipped : Nat
  errors : List RepositoryError
deriving DecidableEq, Repr

/-- Method `ConfigurationEngine.createSummary` (src/src/engine.ts lines 339-356). -/
def createSummary (results : List OperationResult) : OperationSummary :=
  { totalRepositories := results.length
    successful := (results.filter (fun r => r.success)).length
    failed := (results.filter (fun r => !r.success)).length
    skipped := 0
    errors := (results.filter (fun r => !r.success)).map
      (fun r => ⟨r.repository, r.error.getD "Unknown error"⟩) }

/-! ## Supporting lemmas for the engine models -/

theorem flatten_batchesAux {α : Type} (n : Nat) (hn : 1 ≤ n) :
    ∀ (fuel : Nat) (l : List α), l.length ≤ fuel →
    (batchesAux n l fuel).flatten = l := by
  intro fuel
  induction fuel with
  | zero =>
      intro l hl
      have : l = [] := List.eq_nil_of_length_eq_zero (Nat.le_zero.mp hl)
      subst this
      rfl
  | succ fuel ih =>
      intro l hl
      match l with
      | [] => rfl
      | x :: xs =>
          have hdrop : ((x :: xs).drop n).length ≤ fuel := by
            rw [List.length_drop]
            simp only [List.length_cons] at hl ⊢
            omega
          show ((x :: xs).take n :: batchesAux n ((x :: xs).drop n) fuel).flatten = _
          rw [List.flatten_cons, ih _ hdrop, List.take_append_drop]

theorem length_batchesAux {α : Type} (n : Nat) (hn : 1 ≤ n) :
    ∀ (fuel : Nat) (l : List α), l.length ≤ fuel →
    (batchesAux n l fuel).length = (l.length + (n - 1)) / n := by
  intro fuel
  induction fuel with
  | zero =>
      intro l hl
      have : l = [] := List.eq_nil_of_length_eq_zero (Nat.le_zero.mp hl)
      subst this
      simp [batchesAux, Nat.div_eq_of_lt (by omega : n - 1 < n)]
  | succ fuel ih =>
      intro l hl
      match l with
      | [] => simp [batchesAux, Nat.div_eq_of_lt (by omega : n - 1 < n)]
      | x :: xs =>
          have hdrop : ((x :: xs).drop n).length ≤ fuel := by
            rw [List.length_drop]
            simp only [List.length_cons] at hl ⊢
            omega
          show (((x :: xs).take n :: batchesAux n ((x :: xs).drop n) fuel)).length = _
          rw [List.length_cons, ih _ hdrop, List.length_drop]
          rcases Nat.lt_or_ge (x :: xs).length n with hlt | hge
          · have h0 : (x :: xs).length - n = 0 := by omega
            rw [h0, Nat.zero_add]
            have h1 : (n - 1) / n = 0 := Nat.div_eq_of_lt (by omega)
            have h2 : ((x :: xs).length + (n - 1)) / n = 1 := by
              have hone : 1 ≤ (x :: xs).length := by simp
              refine Nat.div_eq_of_lt_le (by omega) (by omega)
            omega
          · have harith : (x :: xs).length + (n - 1) =
                (((x :: xs).length - n) + (n - 1)) + n := by omega
            rw [harith, Nat.add_div_right _ (by omega : 0 < n)]

theorem flatten_batches {α : Type} (n : Nat) (hn : 1 ≤ n) (l : List α) :
    (batches n l).flatten = l :=
  flatten_batchesAux n hn l.length l (Nat.le_refl _)

theorem length_batches {α : Type} (n : Nat) (hn : 1 ≤ n) (l : List α) :
    (batches n l).length = (l.length + (n - 1)) / n :=
  length_batchesAux n hn l.length l (Nat.le_refl _)

theorem get_length_batchesAux {α : Type} (n : Nat) (hn : 1 ≤ n) :
    ∀ (fuel : Nat) (l : List α), l.length ≤ fuel →
    ∀ (i : Nat) (h : i < (batchesAux n l fuel).length),
    ((batchesAux n l fuel).get ⟨i, h⟩).length = min n (l.length - i * n) := by
  intro fuel
  induction fuel with
  | zero =>
      intro l hl i h
      have : l = [] := List.eq_nil_of_length_eq_zero (Nat.le_zero.mp hl)
      subst this
      simp [batchesAux] at h
  | succ fuel ih =>
      intro l hl i h
      match l with
      | [] => simp [batchesAux] at h
      | x :: xs =>
          have hdrop : ((x :: xs).drop n).length ≤ fuel := by
            rw [List.length_drop]
            simp only [List.length_cons] at hl ⊢
            omega
          match i with
          | 0 =>
              show ((x :: xs).take n).length = _
              rw [List.length_take]
              simp
          | i + 1 =>
              have h2 : i < (batchesAux n ((x :: xs).drop n) fuel).length := by
                have : (batchesAux n (x :: xs) (fuel + 1)).length =
                    (batchesAux n ((x :: xs).drop n) fuel).length + 1 := by
                  show ((x :: xs).take n :: batchesAux n
                    ((x :: xs).drop n) fuel).length = _
                  rw [List.length_cons]
                omega
              have hrec := ih ((x :: xs).drop n) hdrop i h2
              show ((batchesAux n ((x :: xs).drop n) fuel).get ⟨i, h2⟩).length = _
              rw [hrec, List.length_drop]
              have harith : (x :: xs).length - n - i * n =
                  (x :: xs).length - (i + 1) * n := by
                rw [Nat.sub_sub, Nat.succ_mul, Nat.add_comm]
              rw [harith]

theorem get_length_batches {α : Type} (n : Nat) (hn : 1 ≤ n) (l : List α)
    (i : Nat) (h : i < (batches n l).length) :
    ((batches n l).get ⟨i, h⟩).length = min n (l.length - i * n) :=
  get_length_batchesAux n hn l.length l (Nat.le_refl _) i h

theorem foldl_append_map {α β : Type} (f : α → β) (bs : List (List α)) :
    ∀ (acc : List β),
    bs.foldl (fun results batch => results ++ batch.map f) acc =
      acc ++ bs.flatten.map f := by
  induction bs with
  | nil => intro acc; simp
  | cons b bs ih =>
      intro acc
      rw [List.foldl_cons, ih, List.flatten_cons]
      simp

theorem psProcessAux_eq_true_iff (attemptOutcome : Nat → Bool) :
    ∀ (remaining attemptNumber : Nat),
    psProcessAux attemptOutcome attemptNumber remaining = true ↔
      ∃ k, attemptNumber ≤ k ∧ k ≤ attemptNumber + remaining ∧
        attemptOutcome k = true := by
  intro remaining
  induction remaining with
  | zero =>
      intro a
      constructor
      · intro h
        exact ⟨a, Nat.le_refl a, by omega, h⟩
      · rintro ⟨k, hk1, hk2, hk3⟩
        have : k = a := by omega
        subst this
        exact hk3
  | succ remaining ih =>
      intro a
      show (if attemptOutcome a then true
        else psProcessAux attemptOutcome (a + 1) remaining) = true ↔ _
      by_cases ha : attemptOutcome a
      · rw [if_pos ha]
        constructor
        · intro _
          exact ⟨a, Nat.le_refl a, by omega, ha⟩
        · intro _
          rfl
      · rw [if_neg ha]
        rw [ih (a + 1)]
        constructor
        · rintro ⟨k, hk1, hk2, hk3⟩
          exact ⟨k, by omega, by omega, hk3⟩
        · rintro ⟨k, hk1, hk2, hk3⟩
          have hka : ¬ k = a := fun he => ha (he ▸ hk3)
          exact ⟨k, by omega, by omega, hk3⟩

theorem length_filter_add_length_filter_neg {α : Type} (p : α → Bool)
    (l : List α) :
    (l.filter p).length + (l.filter (fun a => !(p a))).length = l.length := by
  induction l with
  | nil => rfl
  | cons x xs ih =>
      by_cases hx : p x <;> simp [List.filter, hx] <;> omega

/-! ## Concrete example data used by witnesses and counterexamples -/

/-- A minimal http-variant server spec with the given URL. -/
def httpSpec (u : String) : MCPServerConfig :=
  { type := "http", url := some u, tools := ["t1"] }

/-- Existing configuration of the specification's worked example:
`{A: v1, B: v2}`. -/
def exampleExisting : MCPConfig :=
  ⟨[("A", httpSpec "https://v1"), ("B", httpSpec "https://v2")]⟩

/-- Incoming configuration of the specification's worked example:
`{B: v3, C: v4}`. -/
def exampleIncoming : MCPConfig :=
  ⟨[("B", httpSpec "https://v3"), ("C", httpSpec "https://v4")]⟩

/-- Two-server configuration `{A: v1, B: v2}` for the write-skip analysis. -/
def permutedLeft : MCPConfig :=
  ⟨[("A", httpSpec "https://v1"), ("B", httpSpec "https://v2")]⟩

/-- The same two servers listed in the opposite order: structurally the same
map, a different JSON serialization. -/
def permutedRight : MCPConfig :=
  ⟨[("B", httpSpec "https://v2"), ("A", httpSpec "https://v1")]⟩

/-! ## Claims -/

/-- C1: the configuration merger is a pure, deterministic function satisfying
the four-policy truth table. With the existing configuration present:
Skip-if-existing returns the existing configuration unchanged;
Merge-keep-existing returns the union of the two server maps keeping the
existing entry on every key collision (stated extensionally: every name looks
up to the existing entry when present there, otherwise to the incoming one);
Merge-overwrite-matching returns the union taking the incoming entry on every
collision; Force-replace returns the incoming configuration. Every policy
returns the incoming configuration when the existing one is absent. The
overwrite clause assumes the incoming server names are unique, which
JavaScript object keys guarantee. -/
theorem mergeMCPConfig_truth_table :
    (∀ (e inc : MCPConfig), mergeMCPConfig (some e) inc .skip = e)
    ∧ (∀ (e inc : MCPConfig) (k : String),
        objLookup (mergeMCPConfig (some e) inc .merge).mcpServers k =
          (objLookup e.mcpServers k).or (objLookup inc.mcpServers k))
    ∧ (∀ (e inc : MCPConfig) (k : String),
        (inc.mcpServers.map Prod.fst).Nodup →
        objLookup (mergeMCPConfig (some e) inc .mergeOverwrite).mcpServers k =
          (objLookup inc.mcpServers k).or (objLookup e.mcpServers k))
    ∧ (∀ (e inc : MCPConfig), mergeMCPConfig (some e) inc .forceOverwrite = inc)
    ∧ (∀ (inc : MCPConfig) (strategy : MergeStrategy),
        mergeMCPConfig none inc strategy = inc) := by
  refine ⟨fun e inc => rfl, ?_, ?_, fun e inc => rfl, ?_⟩
  · intro e inc k
    exact objLookup_mergeKeepExisting inc.mcpServers e.mcpServers k
  · intro e inc k hnodup
    exact objLookup_objSpread inc.mcpServers e.mcpServers k hnodup
  · intro inc strategy
    cases strategy <;> rfl

/-- Witness for C1 at the specification's worked example
`existing = {A: v1, B: v2}`, `incoming = {B: v3, C: v4}`: under
Merge-overwrite-matching the name B resolves to the incoming entry v3. -/
theorem mergeMCPConfig_truth_table_witness :
    objLookup (mergeMCPConfig (some exampleExisting) exampleIncoming
        .mergeOverwrite).mcpServers "B" =
      (objLookup exampleIncoming.mcpServers "B").or
        (objLookup exampleExisting.mcpServers "B") :=
  mergeMCPConfig_truth_table.2.2.1 exampleExisting exampleIncoming "B"
    (by decide)

/-- C2 counterexample: the claim says the engine performs no write whenever
the merge result is deep-equal (structural, order-insensitive) to the existing
configuration. The code compares `JSON.stringify` output
(src/src/engine.ts line 254, src/src/browser/automator.ts line 396), which is
representation-sensitive: with Force-replace and an incoming configuration
holding the same two servers in the opposite order, the merge result is
deep-equal to the existing configuration yet the engine performs the write. -/
theorem writeSkip_deepEqual_counterexample :
    deepEqualConfig permutedLeft
      (mergeMCPConfig (some permutedLeft) permutedRight .forceOverwrite)
    ∧ configureRepositoryWrites (some permutedLeft) permutedRight
        .forceOverwrite = true := by
  constructor
  · intro k
    show objLookup permutedLeft.mcpServers k =
      objLookup permutedRight.mcpServers k
    by_cases hA : "A" = k
    · subst hA
      decide
    · by_cases hB : "B" = k
      · subst hB
        decide
      · simp [permutedLeft, permutedRight, objLookup, hA, hB]
  · decide

/-- C2 amended: the engine skips the write exactly when the merge result and
the existing configuration serialize identically — on the embedded model,
when their ordered server lists are equal. That condition implies deep
equality, so every skipped write is genuinely unnecessary, but a merge result
that is deep-equal to the existing configuration with a different server
order or serialization is still written. -/
theorem configureRepositoryWrites_skip_iff :
    ∀ (e inc : MCPConfig) (strategy : MergeStrategy),
      (configureRepositoryWrites (some e) inc strategy = false ↔
        mergeMCPConfig (some e) inc strategy = e)
      ∧ (configureRepositoryWrites (some e) inc strategy = false →
          deepEqualConfig e (mergeMCPConfig (some e) inc strategy)) := by
  intro e inc strategy
  have hx : configureRepositoryWrites (some e) inc strategy =
      !(decide (e = mergeMCPConfig (some e) inc strategy)) := rfl
  have hiff : configureRepositoryWrites (some e) inc strategy = false ↔
      mergeMCPConfig (some e) inc strategy = e := by
    rw [hx]
    constructor
    · intro h
      have hd : decide (e = mergeMCPConfig (some e) inc strategy) = true := by
        revert h
        cases decide (e = mergeMCPConfig (some e) inc strategy) <;> simp
      exact (of_decide_eq_true hd).symm
    · intro h
      rw [h]
      simp
  refine ⟨hiff, fun h => ?_⟩
  rw [hiff.mp h]
  intro k
  rfl

/-- Witness for C2's amended claim: with Skip-if-existing the engine performs
no write, and the skipped merge result is deep-equal to the existing
configuration at the name A. -/
theorem configureRepositoryWrites_skip_iff_witness :
    objLookup exampleExisting.mcpServers "A" =
      objLookup (mergeMCPConfig (some exampleExisting) exampleIncoming
        .skip).mcpServers "A" :=
  (configureRepositoryWrites_skip_iff exampleExisting exampleIncoming
    .skip).2 (by decide) "A"

/-- C3: when the server-name sets of the two configurations are disjoint
(and the incoming names are unique, as JavaScript object keys are),
Merge-keep-existing and Merge-overwrite-matching agree, and both return the
full union — the existing entries followed by the incoming ones. -/
theorem merge_policies_agree_on_disjoint :
    ∀ (e inc : MCPConfig),
      (inc.mcpServers.map Prod.fst).Nodup →
      (∀ p ∈ inc.mcpServers, objLookup e.mcpServers p.1 = none) →
      mergeMCPConfig (some e) inc .merge =
        mergeMCPConfig (some e) inc .mergeOverwrite
      ∧ mergeMCPConfig (some e) inc .merge =
          ⟨e.mcpServers ++ inc.mcpServers⟩ := by
  intro e inc hnodup hdisj
  have h1 : mergeMCPConfig (some e) inc .merge =
      ⟨e.mcpServers ++ inc.mcpServers⟩ := by
    show (⟨mergeKeepExisting e.mcpServers inc.mcpServers⟩ : MCPConfig) = _
    rw [mergeKeepExisting_disjoint inc.mcpServers e.mcpServers hnodup hdisj]
  have h2 : mergeMCPConfig (some e) inc .mergeOverwrite =
      ⟨e.mcpServers ++ inc.mcpServers⟩ := by
    show (⟨objSpread e.mcpServers inc.mcpServers⟩ : MCPConfig) = _
    rw [objSpread_disjoint inc.mcpServers e.mcpServers hnodup hdisj]
  exact ⟨h1.trans h2.symm, h1⟩

/-- Witness for C3: `{A: v1}` merged with the disjoint `{C: v4}` gives the
same result under both merge policies. -/
theorem merge_policies_agree_on_disjoint_witness :
    mergeMCPConfig (some ⟨[("A", httpSpec "https://v1")]⟩)
        ⟨[("C", httpSpec "https://v4")]⟩ .merge =
      mergeMCPConfig (some ⟨[("A", httpSpec "https://v1")]⟩)
        ⟨[("C", httpSpec "https://v4")]⟩ .mergeOverwrite :=
  (merge_policies_agree_on_disjoint ⟨[("A", httpSpec "https://v1")]⟩
    ⟨[("C", httpSpec "https://v4")]⟩ (by decide) (by decide)).1

/-- The flag record of a run where none of the four merge-policy
command-line flags is set. -/
def noPolicyFlags : MergeFlags :=
  ⟨false, false, false, false⟩

/-- C9: with none of the four merge-policy flags set,
`determineMergeStrategy` falls through to its safety default, Skip-if-existing;
consequently a run with no policy flag leaves every repository that already
has an MCP configuration unchanged: the merge returns the existing
configuration itself and the engine performs no write. -/
theorem determineMergeStrategy_default_skip :
    determineMergeStrategy noPolicyFlags = MergeStrategy.skip
    ∧ ∀ (e inc : MCPConfig),
        mergeMCPConfig (some e) inc (determineMergeStrategy noPolicyFlags) = e
        ∧ configureRepositoryWrites (some e) inc
            (determineMergeStrategy noPolicyFlags) = false := by
  refine ⟨rfl, fun e inc => ⟨rfl, ?_⟩⟩
  show (!(skipWrite (some e) e)) = false
  have h : skipWrite (some e) e = true := by
    show decide (e = e) = true
    simp
  rw [h]
  rfl

/-- C4: on every settings page (oracle), the field locator attempts its
strategies in the fixed priority order — search shortcut, sequential Tab
navigation, multi-term search with forward and backward stepping, alternate
keyboard shortcuts, scroll-and-tab — and equals the first positive
classification over the probe sequence in that order; it returns the focused
region the moment the three-way content classifier is positive there, and it
returns the "field not found" failure exactly when every strategy's every
probe classifies negative. -/
theorem navigateToMcpSection_spec :
    ∀ (page : PageOracle) (tabAttempts : Nat),
      navigateToMcpSection page tabAttempts =
        (locatorProbeOrder tabAttempts).find? (checkForMcpField page)
      ∧ (navigateToMcpSection page tabAttempts = none ↔
          ∀ p ∈ locatorProbeOrder tabAttempts, checkForMcpField page p = false)
      ∧ (∀ p, navigateToMcpSection page tabAttempts = some p →
          checkForMcpField page p = true) := by
  intro page tabAttempts
  have horder : navigateToMcpSection page tabAttempts =
      (locatorProbeOrder tabAttempts).find? (checkForMcpField page) := by
    rw [locatorProbeOrder]
    rw [find?_append, find?_append, find?_append, find?_append]
    simp only [option_or_assoc]
    rfl
  refine ⟨horder, ?_, ?_⟩
  · rw [horder]
    constructor
    · intro h p hp
      rcases hc : checkForMcpField page p with _ | _
      · rfl
      · exact absurd (List.find?_isSome.mpr ⟨p, hp, hc⟩)
          (by simp [h])
    · intro h
      rcases hf : (locatorProbeOrder tabAttempts).find?
          (checkForMcpField page) with _ | q
      · rfl
      · have hq := List.find?_some hf
        have hqmem := List.mem_of_find?_eq_some hf
        rw [h q hqmem] at hq
        cases hq
  · intro p hp
    rw [horder] at hp
    exact List.find?_some hp

/-- A demonstration page oracle: exactly the third sequential-Tab focus state
contains the field (its clipboard content matches). -/
def demoOracle : PageOracle :=
  { clipboardContent := fun p =>
      match p with
      | .tabNav 3 => true
      | _ => false
    fieldContext := fun _ => false
    jsonStructure := fun _ => false }

/-- Witness for C4: on the demonstration page the locator stops at the third
Tab probe, where the classifier is positive. -/
theorem navigateToMcpSection_spec_witness :
    checkForMcpField demoOracle (Probe.tabNav 3) = true :=
  (navigateToMcpSection_spec demoOracle 20).2.2 (Probe.tabNav 3) (by decide)

/-- A pipeline outcome that fails with a transient network error on the first
attempt and would succeed on any later attempt. -/
def flakyAttempt : Nat → Except String Unit :=
  fun k => if k = 1 then .error "net::ERR_NETWORK_CHANGED" else .ok ()

/-- C5 counterexample: the TypeScript engine
(`ConfigurationEngine.processRepository`, src/src/engine.ts lines 223-337)
does not re-run a failed repository pipeline: with a pipeline that fails
transiently on attempt 1 and would succeed on attempt 2, it records the
repository as failed after exactly one attempt, not the claimed configured
maximum (3 in the Windows orchestrator's defaults) — while the Windows
PowerShell `Process-Repository`, run on the same outcomes with maximum 3,
retries and succeeds. -/
theorem tsProcessRepository_no_retry_counterexample :
    ((tsProcessRepository "owner/repo" flakyAttempt).1.success = false)
    ∧ ((tsProcessRepository "owner/repo" flakyAttempt).2 = 1)
    ∧ psProcessRepository (fun k => k != 1) 1 3 = true := by
  decide

/-- C5 amended: retry up to a configured maximum attempt count with a fixed
inter-attempt delay is implemented only by the Windows PowerShell
orchestrator's `Process-Repository` (maximum `MaxRetries`, default 3; delay
`DelayBetweenRepos`, default 5 s): starting from attempt 1 it succeeds exactly
when some attempt `k ≤ MaxRetries` succeeds, and records failure only after
exhausting all of them. The TypeScript engine's `processRepository` performs
exactly one pipeline attempt per repository, succeeds exactly when that
attempt does, and converts any error into a failed per-repository result
instead of propagating it (failure isolation). -/
theorem repository_retry_semantics :
    (∀ (attemptOutcome : Nat → Bool) (maxRetries : Nat), 1 ≤ maxRetries →
      (psProcessRepository attemptOutcome 1 maxRetries = true ↔
        ∃ k, 1 ≤ k ∧ k ≤ maxRetries ∧ attemptOutcome k = true))
    ∧ (∀ (fullName : String) (attemptOutcome : Nat → Except String Unit),
        (tsProcessRepository fullName attemptOutcome).2 = 1
        ∧ ((tsProcessRepository fullName attemptOutcome).1.success = true ↔
            attemptOutcome 1 = .ok ())
        ∧ (tsProcessRepository fullName attemptOutcome).1.repository =
            fullName) := by
  constructor
  · intro attemptOutcome maxRetries hmax
    rw [psProcessRepository, psProcessAux_eq_true_iff]
    constructor
    · rintro ⟨k, hk1, hk2, hk3⟩
      exact ⟨k, hk1, by omega, hk3⟩
    · rintro ⟨k, hk1, hk2, hk3⟩
      exact ⟨k, hk1, by omega, hk3⟩
  · intro fullName attemptOutcome
    rcases h : attemptOutcome 1 with e | u
    · refine ⟨by simp [tsProcessRepository, h], ?_, by simp [tsProcessRepository, h]⟩
      simp [tsProcessRepository, h]
    · refine ⟨by simp [tsProcessRepository, h], ?_, by simp [tsProcessRepository, h]⟩
      simp [tsProcessRepository, h]

/-- Witness for C5's amended claim: an attempt sequence failing only on
attempt 1, run by the PowerShell orchestrator with the default maximum of 3,
succeeds — some attempt within the 3 succeeded. -/
theorem repository_retry_semantics_witness :
    ∃ k, 1 ≤ k ∧ k ≤ 3 ∧ (k != 1) = true :=
  (repository_retry_semantics.1 (fun k => k != 1) 3 (by decide)).mp (by decide)

/-- C6: for every repository list and positive batch size N, the engine cuts
the list into exactly ceil(n/N) batches in resolution order: their
concatenation is the original list and the i-th batch has exactly
min N (n − iN) repositories — for 7 repositories and N = 3 the sizes
3, 3, 1. It awaits each batch in full and appends every repository's settled
result: the final result list is the per-repository settlement mapped over
the whole list, so an earlier repository's failure never removes any later
batch or repository from the run. -/
theorem processRepositories_batching :
    ∀ (concurrency : Nat), 1 ≤ concurrency →
    ∀ (repositories : List String)
      (run : String → Except String OperationResult),
      (batches concurrency repositories).length =
        (repositories.length + (concurrency - 1)) / concurrency
      ∧ (batches concurrency repositories).flatten = repositories
      ∧ (∀ (i : Nat) (h : i < (batches concurrency repositories).length),
          ((batches concurrency repositories).get ⟨i, h⟩).length =
            min concurrency (repositories.length - i * concurrency))
      ∧ processRepositories concurrency run repositories =
          repositories.map (fun r => settleResult r run) := by
  intro concurrency hc repositories run
  refine ⟨length_batches concurrency hc repositories,
    flatten_batches concurrency hc repositories,
    fun i h => get_length_batches concurrency hc repositories i h, ?_⟩
  rw [processRepositories, foldl_append_map, flatten_batches concurrency hc]
  rfl

/-- The seven-repository list of the specification's concurrency scenario. -/
def sevenRepos : List String :=
  ["o/r1", "o/r2", "o/r3", "o/r4", "o/r5", "o/r6", "o/r7"]

/-- A pipeline in which the second repository of the first batch fails. -/
def demoRun : String → Except String OperationResult :=
  fun fullName =>
    if fullName = "o/r2" then .error "forced failure"
    else .ok ⟨fullName, true, none⟩

/-- Witness for C6 at the specification's scenario: 7 repositories with batch
size 3, a forced failure in batch 1 — every repository still gets its settled
result, in order. -/
theorem processRepositories_batching_witness :
    processRepositories 3 demoRun sevenRepos =
      sevenRepos.map (fun r => settleResult r demoRun) :=
  (processRepositories_batching 3 (by decide) sevenRepos demoRun).2.2.2

/-- Returns `true` exactly on the error constructor. -/
def isError {ε α : Type} : Except ε α → Bool
  | .error _ => true
  | .ok _ => false

/-- C7: a configuration containing a server of type "http" without a truthy
`url` (or of type "local" without a truthy `command`) is rejected by
`validateMCPConfig`, and the engine's `configure` therefore aborts during
file parsing — before repository discovery, API/browser initialization, or
any per-repository processing, for every repository list and mode: zero side
effects on any repository. -/
theorem validateMCPConfig_rejects_incomplete_server :
    ∀ (c : MCPConfigJson) (servers : List (String × ServerJson))
      (p : String × ServerJson),
      c.mcpServers = some servers → p ∈ servers →
      ((p.2.type = some "http" ∧ truthyStr p.2.url = false) ∨
       (p.2.type = some "local" ∧ truthyStr p.2.command = false)) →
      isError (validateMCPConfig c) = true
      ∧ ∀ (repoNames : List String) (dryRun apiOnly : Bool),
          isError (configureTrace c repoNames dryRun apiOnly) = true := by
  intro c servers p hc hp hbad
  have herr : ∃ m, validateMCPConfig c = .error m := by
    have hserver : ∃ m, validateServer p.1 p.2 = .error m := by
      rcases hbad with ⟨htype, hurl⟩ | ⟨htype, hcmd⟩
      · exact validateServer_error_http p.1 p.2 htype hurl
      · exact validateServer_error_local p.1 p.2 htype hcmd
    rcases validateServers_error_of_mem servers p hp hserver with ⟨m, hm⟩
    exact ⟨m, by rw [validateMCPConfig, hc]; exact hm⟩
  rcases herr with ⟨m, hm⟩
  refine ⟨by rw [hm]; rfl, ?_⟩
  intro repoNames dryRun apiOnly
  rw [configureTrace, hm]
  rfl

/-- A configuration whose single server is of type "http" with no `url`. -/
def badHttpConfig : MCPConfigJson :=
  ⟨some [("github", { type := some "http", tools := some ["t1"] })]⟩

/-- Witness for C7: the http-without-url configuration is rejected at
validation and the engine run aborts with no engine actions. -/
theorem validateMCPConfig_rejects_witness :
    isError (validateMCPConfig badHttpConfig) = true
    ∧ isError (configureTrace badHttpConfig ["o/r1"] false false) = true := by
  have h := validateMCPConfig_rejects_incomplete_server badHttpConfig
    [("github", { type := some "http", tools := some ["t1"] })]
    ("github", { type := some "http", tools := some ["t1"] })
    rfl (by decide) (Or.inl (by decide))
  exact ⟨h.1, h.2 ["o/r1"] false false⟩

/-- The resolution oracle of the specification's selector scenario: "a/b"
resolves with admin access, "c/d" resolves without it. -/
def demoView : String → Option RepoView :=
  fun n =>
    if n = "a/b" then some ⟨"b", "a", true⟩
    else if n = "c/d" then some ⟨"d", "c", false⟩
    else none

/-- C8 counterexample: with the explicit list ["a/b", "a/b", "c/d"] where
"c/d" lacks admin access, `getRepositoriesFromList` does not return the
single-element ["a/b"] the claim states: the loop pushes one entry per
successful resolution and performs no duplicate collapse. -/
theorem getRepositoriesFromList_counterexample :
    getRepositoriesFromList demoView ["a/b", "a/b", "c/d"] ≠
      [⟨"b", "a", "a/b", true⟩] := by
  decide

theorem selectorStep_eq (view : String → Option RepoView)
    (acc : List Repository) (n : String) :
    selectorStep view acc n = acc ++ (selectorPick view n).toList := by
  rw [selectorStep, selectorPick]
  rcases hv : view n with _ | r
  · simp
  · rcases hadm : r.viewerCanAdminister <;> simp [hadm]

/-- C8 amended: the selector excludes the entry without admin access but
keeps repeated entries: on the scenario list it returns "a/b" twice. In
general it returns, in input order, one repository per input occurrence that
resolves and has admin access — no deduplication. -/
theorem getRepositoriesFromList_amended :
    getRepositoriesFromList demoView ["a/b", "a/b", "c/d"] =
      [⟨"b", "a", "a/b", true⟩, ⟨"b", "a", "a/b", true⟩]
    ∧ ∀ (view : String → Option RepoView) (repoList : List String),
        getRepositoriesFromList view repoList =
          repoList.filterMap (selectorPick view) := by
  constructor
  · decide
  · intro view repoList
    rw [getRepositoriesFromList]
    have hgen : ∀ (l : List String) (acc : List Repository),
        l.foldl (selectorStep view) acc =
          acc ++ l.filterMap (selectorPick view) := by
      intro l
      induction l with
      | nil => intro acc; simp
      | cons n rest ih =>
          intro acc
          rw [List.foldl_cons, selectorStep_eq, ih, List.filterMap_cons]
          rcases hp : selectorPick view n with _ | b <;> simp
    exact hgen repoList []

/-- C10: every `OperationSummary` the engine produces through `createSummary`
satisfies successful + failed = totalRepositories, and its error list has
exactly one entry per failed repository result — the failed results mapped,
in order, to (repository, error-or-"Unknown error") pairs. -/
theorem createSummary_invariants :
    ∀ (results : List OperationResult),
      (createSummary results).successful + (createSummary results).failed =
        (createSummary results).totalRepositories
      ∧ (createSummary results).errors.length = (createSummary results).failed
      ∧ (createSummary results).errors =
          (results.filter (fun r => !r.success)).map
            (fun r => ⟨r.repository, r.error.getD "Unknown error"⟩) := by
  intro results
  refine ⟨?_, ?_, rfl⟩
  · exact length_filter_add_length_filter_neg (fun r => r.success) results
  · rw [createSummary]
    simp

end BulkConfig
